import Mathlib

/-!
Verification of the Surana Hospital data-reconciliation pipeline.

This file gives a shallow embedding, in Lean 4, of the pure logic of the
repository's ETL pipeline and reporting filters:

* `scripts/utils.py`    : `clean_name` (honorific stripping, punctuation and
                          whitespace removal, upper-casing);
* `scripts/data_cleaner.py` : `compute_revenue` (priority order over
                          settlement / gross / approved / bill amounts);
* `scripts/merge_data.py`   : the IP merge orchestrator (joins, charge-line
                          aggregation, revenue apportionment, duplicate
                          resolution, expiry join);
* `scripts/data_loader.py`  : `load_tpa_sheet` retry logic and the direct
                          spreadsheet call in `load_all_data`;
* `Hospital_dashboard.py`   : `get_age_group` age banding;
* `dashboard/filters.py`    : `filter_ip_data`.

Modelling conventions:
* dataframes are lists of records; a missing cell (pandas `NaN`/`NA`/`NaT`)
  is `Option.none`; numeric cells are rationals (`ℚ`), timestamps are `Int`;
* Python's `NaN` comparison semantics are modelled explicitly: `NaN > 0`
  is false, `NaN + x` is `NaN` (propagated through `Option`);
* Python regular-expression character classes `\w` and `\s` are modelled at
  their ASCII restriction (the data's key strings are ASCII);
* `.astype(int)` on a float column truncates toward zero, modelled by
  `truncZ`.
-/

namespace Hospital

/-! ## Character-level helpers (`scripts/utils.py`) -/

/-- Python `\w` (ASCII restriction): letters, digits or underscore. -/
def isWordChar (c : Char) : Bool :=
  c.isAlphanum || c = '_'

/-- Python `\s` (ASCII restriction): space, tab, newline, carriage return. -/
def isPySpace (c : Char) : Bool :=
  c = ' ' || c = '\t' || c = '\n' || c = '\r' || c = '\x0b' || c = '\x0c'

/-- Python `str.upper` on one character (ASCII restriction):
lower-case letters are shifted down by 32, everything else is unchanged. -/
def upperChar (c : Char) : Char :=
  if 'a' ≤ c ∧ c ≤ 'z' then Char.ofNat (c.toNat - 32) else c

/-- Word-char status of an optional neighbouring character
(out-of-string counts as a non-word position for `\b`). -/
def isWordOpt : Option Char → Bool
  | none => false
  | some c => isWordChar c

/-- Case-insensitive literal prefix match: if `cs` starts with `pat`
(comparing lower-cased characters), return the remainder. -/
def matchCI : List Char → List Char → Option (List Char)
  | [], cs => some cs
  | _ :: _, [] => none
  | p :: ps, c :: cs => if c.toLower = p then matchCI ps cs else none

/-- One attempt of the regex `\b(Dr|Mr|Mrs)\.?\b` at the current position,
whose left context is `prev`.  Alternatives are tried in the pattern's
order; the optional dot is greedy; each continuation checks the trailing
word boundary, backtracking exactly as `re` does.  On success, returns the
unconsumed remainder together with the last consumed character. -/
def tryHonorific (prev : Option Char) (cs : List Char) :
    Option (List Char × Char) :=
  -- leading `\b`: the pattern starts with a letter, so the previous
  -- position must not be a word character
  if isWordOpt prev then none
  else
    (["dr".data, "mr".data, "mrs".data].firstM fun pat =>
      match matchCI pat cs with
      | none => none
      | some rest =>
        -- last character of the string actually consumed by the literal
        let lastLetter := (cs.take pat.length).getLastD 'r'
        -- zero-width `\.?` branch: `\b` between the final pattern letter
        -- (a word character) and the next position
        let nodot : Option (List Char × Char) :=
          if !isWordOpt rest.head? then some (rest, lastLetter) else none
        -- greedy `\.?`: first try to consume a dot; the trailing `\b`
        -- then sits between '.' (non-word) and the next character;
        -- on failure backtrack to the zero-width branch
        match rest with
        | '.' :: c2 :: rest2 =>
          if isWordChar c2 then some (c2 :: rest2, '.') else nodot
        | _ => nodot)

/-- Left-to-right scan of `re.sub(r"\b(Dr|Mr|Mrs)\.?\b", "", name, re.I)`:
at each position try the pattern; on a match delete it and continue after
it (non-overlapping), otherwise keep the character.  `fuel` bounds the
recursion (every step consumes at least one character). -/
def subHonorificsAux : Nat → Option Char → List Char → List Char
  | 0, _, cs => cs
  | _ + 1, _, [] => []
  | fuel + 1, prev, c :: cs =>
    match tryHonorific prev (c :: cs) with
    | some (rest, lastc) => subHonorificsAux fuel (some lastc) rest
    | none => c :: subHonorificsAux fuel (some c) cs

/-- `re.sub(r"\b(Dr|Mr|Mrs)\.?\b", "", name, flags=re.IGNORECASE)`. -/
def subHonorifics (cs : List Char) : List Char :=
  subHonorificsAux cs.length none cs

/-- `re.sub(r"[().]", "", name)`: drop parentheses and periods. -/
def removeParens (cs : List Char) : List Char :=
  cs.filter fun c => !(c = '(' || c = ')' || c = '.')

/-- `re.sub(r"\s+", "", name)`: drop all whitespace. -/
def stripWs (cs : List Char) : List Char :=
  cs.filter fun c => !isPySpace c

/-- Python `str.strip()`: drop leading and trailing whitespace. -/
def pyStrip (cs : List Char) : List Char :=
  ((cs.dropWhile isPySpace).reverse.dropWhile isPySpace).reverse

/-- `clean_name` from `scripts/utils.py`, on an actual (non-null) string:
strip honorifics, remove `(`/`)`/`.`, remove all whitespace, `strip()`,
then upper-case. -/
def cleanName (s : String) : String :=
  ⟨(pyStrip (stripWs (removeParens (subHonorifics s.data)))).map upperChar⟩

/-- `clean_name` on a nullable cell: `pd.isna(name)` yields `""`. -/
def cleanNameOpt : Option String → String
  | none => ""
  | some s => cleanName s

/-! ## NaN-aware numeric primitives

A numeric cell is `Option ℚ`; `none` is `NaN`. -/

/-- `pd.to_numeric(x, errors='coerce') or 0`.  `NaN` is *truthy* in Python,
so it survives the `or`; only a literal zero (falsy) is replaced by `0`. -/
def toNumOr0 : Option ℚ → Option ℚ
  | none => none
  | some v => if v = 0 then some 0 else some v

@[simp] theorem toNumOr0_eq (x : Option ℚ) : toNumOr0 x = x := by
  cases x with
  | none => rfl
  | some v =>
    simp only [toNumOr0]
    split
    · simp [*]
    · rfl

/-- Python `x > 0` where `x` may be `NaN` (every comparison with `NaN`
is false). -/
def gtZero : Option ℚ → Bool
  | none => false
  | some v => 0 < v

/-- Python `x + y` where either side may be `NaN` (`NaN` propagates). -/
def addN : Option ℚ → Option ℚ → Option ℚ
  | some a, some b => some (a + b)
  | _, _ => none

/-- `.astype(int)` on a float: truncation toward zero. -/
def truncZ (q : ℚ) : ℤ :=
  if 0 ≤ q then ⌊q⌋ else ⌈q⌉

/-! ## `compute_revenue` (`scripts/data_cleaner.py`) -/

/-- The five monetary cells `compute_revenue` reads from a merged row. -/
structure RevCells where
  stlmt_amt : Option ℚ := none
  settlement_gross : Option ℚ := none
  DepBalAmt : Option ℚ := none
  approved_amt : Option ℚ := none
  BillAmt : Option ℚ := none
deriving Repr, DecidableEq

/-- `compute_revenue(row)` from `scripts/data_cleaner.py`: settlement
amount if positive, else gross settlement plus deposit balance if the
gross is positive, else approved amount plus deposit balance if the
approved amount is positive, else the raw bill amount. -/
def compute_revenue (r : RevCells) : Option ℚ :=
  let stlmt_amt := toNumOr0 r.stlmt_amt
  let settlement_gross := toNumOr0 r.settlement_gross
  let depbalamt := toNumOr0 r.DepBalAmt
  let approved_amt := toNumOr0 r.approved_amt
  let bill_amt := toNumOr0 r.BillAmt
  if gtZero stlmt_amt then stlmt_amt
  else if gtZero settlement_gross then addN settlement_gross depbalamt
  else if gtZero approved_amt then addN approved_amt depbalamt
  else bill_amt

/-! ## Age banding (`Hospital_dashboard.py`, `get_age_group`) -/

/-- The value fed to `get_age_group`: a float (possibly `NaN`), or a value
on which `float(...)` raises (a non-numeric string, `None`, ...). -/
inductive AgeVal where
  | num : ℚ → AgeVal
  | nan : AgeVal
  | nonNumeric : AgeVal
deriving Repr, DecidableEq

/-- `get_age_group(age)` from `Hospital_dashboard.py`.  `float(age)`
raising lands in the `except` branch (`"Unknown"`); `NaN` compares false
against both bounds and therefore falls through to the last branch. -/
def get_age_group : AgeVal → String
  | .num a =>
    if a < 18 then "Less than 18 years"
    else if a < 65 then "Less than 65 years"
    else "Greater than equal 65 years"
  | .nan => "Greater than equal 65 years"
  | .nonNumeric => "Unknown"

/-! ## Charge-line aggregation (`merge_data.py` lines 73–81)

`ip_detail_df.groupby('ip_no').agg({'amt': 'sum', 'no_units': 'sum', ...,
'srv_desc_mapping': 'first'})`: one output row per distinct `ip_no`,
summing `amt` and `no_units` (pandas sums skip `NaN`; an all-`NaN` group
sums to `0`), keeping the first `srv_desc_mapping`. -/

/-- One cleaned `ip_detail` charge line (output of `clean_ip_detail`,
restricted to the columns the merge consumes). -/
structure DetailRow where
  ip_no : String
  amt : Option ℚ := none
  no_units : Option ℚ := none
  srv_desc_mapping : String := ""
deriving Repr, DecidableEq

/-- One row of `ip_detail_agg`. -/
structure AggRow where
  ip_no : String
  amt : ℚ
  no_units : ℚ
  srv_desc_mapping : String
deriving Repr, DecidableEq

/-- Fold one charge line into the accumulated per-admission table:
if the admission is already present, add the line's amounts into its
group (`NaN` contributes nothing, as in a pandas sum), otherwise open a
new group. -/
def aggInsert (acc : List AggRow) (r : DetailRow) : List AggRow :=
  match acc with
  | [] => [{ ip_no := r.ip_no, amt := (r.amt.getD 0), no_units := (r.no_units.getD 0),
             srv_desc_mapping := r.srv_desc_mapping }]
  | g :: gs =>
    if g.ip_no = r.ip_no then
      { g with amt := g.amt + r.amt.getD 0, no_units := g.no_units + r.no_units.getD 0 } :: gs
    else
      g :: aggInsert gs r

/-- `ip_detail_df.groupby('ip_no').agg(...)` (group order is immaterial to
every use: the result is only ever probed by key). -/
def aggDetail (rows : List DetailRow) : List AggRow :=
  rows.foldl aggInsert []

/-! ## Cleaned source tables fed into the merge (`scripts/merge_data.py`)

Each structure carries the columns of the corresponding cleaned table that
the IP merge actually consumes; a field is `Option` exactly when the
cleaned column can hold a missing value. -/

/-- A row of the cleaned admission list (`clean_admission_list` drops
rows whose admission date fails to parse, so `adm_dt` is never missing). -/
structure AdmissionRow where
  ip_no : String
  adm_dt : Int := 0
deriving Repr, DecidableEq

/-- A row of the cleaned IP discharge register (`clean_ip_discharge`).
`CREDIT COMPANY` and the two cleaned doctor keys are always strings
(`fillna("NOT FOUND")`, `clean_name`); the rest may be missing. -/
structure DischargeRow where
  ip_no : String
  ptn_no : Option String := none
  credit_company : String := "NOT FOUND"
  DocName : Option String := none
  refname : Option String := none
  doctor_mapping : String := ""
  doctor_mapping_referral : String := ""
  cse_typ_dcd : Option String := none
  BillAmt : Option ℚ := none
  stlmt_amt : Option ℚ := none
  DepBalAmt : Option ℚ := none
  dschg_dt : Option Int := none
deriving Repr, DecidableEq

/-- A row of the cleaned patient master. -/
structure PatientRow where
  ptn_no : String
  PtnName : Option String := none
  Age : Option ℚ := none
  sex : Option String := none
deriving Repr, DecidableEq

/-- A row of the cleaned charge-code master (`clean_code_master` fills and
`clean_name`s the `Group` column, so it is a plain string). -/
structure CodeRow where
  srv_desc_mapping : String
  Group : String := ""
deriving Repr, DecidableEq

/-- A row of the cleaned doctor master. -/
structure DoctorRow where
  doctor_mapping : String
  speciality : Option String := none
deriving Repr, DecidableEq

/-- A row of the external TPA sheet (string-typed spreadsheet rows). -/
structure TpaDataRow where
  voucher_number : String
  Claim_No : Option String := none
  approved_amt : Option ℚ := none
  settlement_gross : Option ℚ := none
  credit_company : Option String := none
deriving Repr, DecidableEq

/-- A row of the cleaned TPA mapping table. -/
structure TpaMapRow where
  company_mapping : String
  type_of_company : Option String := none
deriving Repr, DecidableEq

/-- A row of the expired-patients list (only `ip_no` is used). -/
structure ExpiredRow where
  ip_no : String
deriving Repr, DecidableEq

/-- A row of the IP fact table while it is being assembled: columns that a
later join has not yet populated are still `none`. -/
structure IpRow where
  ip_no : String
  adm_dt : Option Int := none
  ptn_no : Option String := none
  credit_company : Option String := none
  DocName : Option String := none
  refname : Option String := none
  doctor_mapping : Option String := none
  doctor_mapping_referral : Option String := none
  cse_typ_dcd : Option String := none
  BillAmt : Option ℚ := none
  stlmt_amt : Option ℚ := none
  DepBalAmt : Option ℚ := none
  dschg_dt : Option Int := none
  PtnName : Option String := none
  Age : Option ℚ := none
  sex : Option String := none
  amt : Option ℚ := none
  no_units : Option ℚ := none
  srv_desc_mapping : Option String := none
  Group : Option String := none
  consultant_specialty : Option String := none
  referral_specialty : Option String := none
  Claim_No : Option String := none
  approved_amt : Option ℚ := none
  settlement_gross : Option ℚ := none
  credit_company_tpa : Option String := none
  company_mapping : String := ""
  type_of_company : Option String := none
  tpa_corporate : Option String := none
  revenue : Option ℚ := none
  line_revenue : ℤ := 0
  patient_expired : Option String := none
deriving Repr, DecidableEq

/-! ## Join combinators -/

/-- Left join against a key-unique right table (pandas `how='left'` with a
`many_to_one`/`one_to_one` validation): every left row is enriched with
its first — under the validated uniqueness, only — match. -/
def joinFirst (t : List IpRow) (right : List β) (hit : IpRow → β → Bool)
    (enrich : IpRow → β → IpRow) : List IpRow :=
  t.map fun r =>
    match right.find? (hit r) with
    | some m => enrich r m
    | none => r

/-- Unvalidated left join (pandas `how='left'` without `validate`): a left
row is repeated once per match, and kept bare when there is no match. -/
def joinExpand (t : List IpRow) (right : List β) (hit : IpRow → β → Bool)
    (enrich : IpRow → β → IpRow) : List IpRow :=
  t.flatMap fun r =>
    match right.filter (hit r) with
    | [] => [r]
    | ms => ms.map (enrich r)

/-- `drop_duplicates(subset=key, keep='first')`: keep, in order, the first
row bearing each key. -/
def dedupByKey [DecidableEq κ] (key : α → κ) : List α → List α
  | [] => []
  | r :: rs => r :: dedupByKey key (rs.filter fun s => key s ≠ key r)
termination_by l => l.length
decreasing_by
  simp only [List.length_cons]
  exact Nat.lt_succ_of_le (List.length_filter_le _ _)

/-! ## The IP merge pipeline (`merge_data.py` lines 57–194), stage by stage -/

/-- Lines 57–63: admission list left-joined to the discharge register on
`ip_no` (`validate='one_to_one'`). -/
def stageDischarge (adm : List AdmissionRow) (dis : List DischargeRow) : List IpRow :=
  adm.map fun a =>
    match dis.find? (fun d => d.ip_no = a.ip_no) with
    | none => { ip_no := a.ip_no, adm_dt := some a.adm_dt }
    | some d =>
      { ip_no := a.ip_no, adm_dt := some a.adm_dt, ptn_no := d.ptn_no,
        credit_company := some d.credit_company, DocName := d.DocName,
        refname := d.refname, doctor_mapping := some d.doctor_mapping,
        doctor_mapping_referral := some d.doctor_mapping_referral,
        cse_typ_dcd := d.cse_typ_dcd, BillAmt := d.BillAmt,
        stlmt_amt := d.stlmt_amt, DepBalAmt := d.DepBalAmt,
        dschg_dt := d.dschg_dt }

/-- Lines 65–70: attach patient demographics by `ptn_no`
(`validate='many_to_one'`; a missing `ptn_no` matches nothing). -/
def stagePatient (t : List IpRow) (patient : List PatientRow) : List IpRow :=
  joinFirst t patient (fun r p => r.ptn_no = some p.ptn_no)
    (fun r p => { r with PtnName := p.PtnName, Age := p.Age, sex := p.sex })

/-- Lines 72–83: attach the per-admission charge aggregate by `ip_no`
(`validate='one_to_one'`). -/
def stageAgg (t : List IpRow) (agg : List AggRow) : List IpRow :=
  joinFirst t agg (fun r g => r.ip_no = g.ip_no)
    (fun r g => { r with amt := some g.amt, no_units := some g.no_units,
                         srv_desc_mapping := some g.srv_desc_mapping })

/-- Lines 85–90: attach `Group` by `srv_desc_mapping`
(`validate='many_to_one'`). -/
def stageCode (t : List IpRow) (code : List CodeRow) : List IpRow :=
  joinFirst t code (fun r c => r.srv_desc_mapping = some c.srv_desc_mapping)
    (fun r c => { r with Group := some c.Group })

/-- Lines 92–100: attach the consultant specialty by the cleaned attending
doctor key (`validate='many_to_one'`). -/
def stageConsultant (t : List IpRow) (doc : List DoctorRow) : List IpRow :=
  joinFirst t doc (fun r d => r.doctor_mapping = some d.doctor_mapping)
    (fun r d => { r with consultant_specialty := d.speciality })

/-- Lines 102–111: attach the referral specialty by the cleaned referring
doctor key (same lookup table, second pass). -/
def stageReferral (t : List IpRow) (doc : List DoctorRow) : List IpRow :=
  joinFirst t doc (fun r d => r.doctor_mapping_referral = some d.doctor_mapping)
    (fun r d => { r with referral_specialty := d.speciality })

/-- Lines 113–123: attach the external TPA sheet by
`ip_no = voucher_number` (`validate='many_to_one'`). -/
def stageTpa (t : List IpRow) (tpa : List TpaDataRow) : List IpRow :=
  joinFirst t tpa (fun r v => r.ip_no = v.voucher_number)
    (fun r v => { r with Claim_No := v.Claim_No, approved_amt := v.approved_amt,
                         settlement_gross := v.settlement_gross,
                         credit_company_tpa := v.credit_company })

/-- Lines 125–130: `CREDIT COMPANY` is reconciled by filling a missing
local value from the TPA sheet (the column always exists after the
discharge join, so the `else` branch of line 128 is dead). -/
def stageCreditFix (t : List IpRow) : List IpRow :=
  t.map fun r => { r with credit_company := r.credit_company.or r.credit_company_tpa }

/-- Line 133: `company_mapping = CREDIT COMPANY` passed through
`clean_name` (`NaN` cleans to `""`). -/
def stageCompanyKey (t : List IpRow) : List IpRow :=
  t.map fun r => { r with company_mapping := cleanNameOpt r.credit_company }

/-- Line 134: merge the TPA mapping on `company_mapping` — the one join
with no `validate=`, hence with genuine row duplication on a duplicated
right key. -/
def stageTpaMap (t : List IpRow) (tpaMap : List TpaMapRow) : List IpRow :=
  joinExpand t tpaMap (fun r m => r.company_mapping = m.company_mapping)
    (fun r m => { r with type_of_company := m.type_of_company })

/-- Lines 141–143: `revenue = apply(compute_revenue)` followed by
`amt.fillna(0)` and `revenue.fillna(0)`. -/
def stageRevenue (t : List IpRow) : List IpRow :=
  t.map fun r =>
    { r with
      revenue := some ((compute_revenue
        { stlmt_amt := r.stlmt_amt, settlement_gross := r.settlement_gross,
          DepBalAmt := r.DepBalAmt, approved_amt := r.approved_amt,
          BillAmt := r.BillAmt }).getD 0),
      amt := some (r.amt.getD 0) }

/-- Line 144: `groupby('ip_no')['amt'].transform('sum')` — the total raw
charge amount the table currently records for one admission number. -/
def totalAmt (t : List IpRow) (ip : String) : ℚ :=
  ((t.filter fun r => r.ip_no = ip).map fun r => r.amt.getD 0).sum

/-- Lines 144–146: apportion each row's `line_revenue` as its share of the
admission's total `amt` times the row's `revenue`; a zero total is turned
into `NaN` by `.replace(0, np.nan)` and the resulting `NaN` share into `0`
by `.fillna(0)`; `.astype(int)` truncates toward zero. -/
def lineRevenueAssign (t : List IpRow) : List IpRow :=
  t.map fun r =>
    let T := totalAmt t r.ip_no
    { r with line_revenue :=
        if T = 0 then 0 else truncZ (r.amt.getD 0 / T * r.revenue.getD 0) }

/-- Lines 153–159: duplicated admission numbers are dropped, keeping the
first surviving row, but only when a duplicate is detected. -/
def dedupStage (t : List IpRow) : List IpRow :=
  if (t.map fun r => r.ip_no).Nodup then t
  else dedupByKey (fun r => r.ip_no) t

/-- Lines 166–172: `astype(str).str.strip()` followed by deleting every
non-ASCII character (`replace(r'[^\x00-\x7F]+', '')`). -/
def sanitizeIp (s : String) : String :=
  ⟨(pyStrip s.data).filter fun c => c.toNat ≤ 127⟩

/-- Lines 161–179: attach the expiry flag.  With a non-empty expired list
both key columns are sanitized, the expired keys are deduplicated, and a
left join (`validate='many_to_one'`) marks matches `'yes'`, filling the
rest with `'no'`; with no expired data the flag is constantly `'no'`. -/
def stageExpired (t : List IpRow) (expired : List ExpiredRow) : List IpRow :=
  if expired.isEmpty then
    t.map fun r => { r with patient_expired := some "no" }
  else
    let ex := dedupByKey id (expired.map fun e => sanitizeIp e.ip_no)
    t.map fun r =>
      let ip := sanitizeIp r.ip_no
      { r with ip_no := ip,
               patient_expired := some (if ex.contains ip then "yes" else "no") }

/-- Line 181: `TPA/CORPORATE = Type of Company`. -/
def stageTpaCorporate (t : List IpRow) : List IpRow :=
  t.map fun r => { r with tpa_corporate := r.type_of_company }

/-- The cleaned tables the IP merge consumes. -/
structure MergeInputs where
  admission : List AdmissionRow := []
  discharge : List DischargeRow := []
  patient : List PatientRow := []
  detail : List DetailRow := []
  codeMaster : List CodeRow := []
  doctorMaster : List DoctorRow := []
  tpaData : List TpaDataRow := []
  tpaMapping : List TpaMapRow := []
  expired : List ExpiredRow := []
deriving Repr

/-- The fact table as of line 147: everything up to and including the
revenue apportionment, before duplicate resolution. -/
def mergeCore (inp : MergeInputs) : List IpRow :=
  let t := stageDischarge inp.admission inp.discharge
  let t := stagePatient t inp.patient
  let t := stageAgg t (aggDetail inp.detail)
  let t := stageCode t inp.codeMaster
  let t := stageConsultant t inp.doctorMaster
  let t := stageReferral t inp.doctorMaster
  let t := stageTpa t inp.tpaData
  let t := stageCreditFix t
  let t := stageCompanyKey t
  let t := stageTpaMap t inp.tpaMapping
  let t := stageRevenue t
  lineRevenueAssign t

/-- `merge_data`'s IP branch (`merge_data.py` lines 41–194).  The
`validate=` checks of the pandas merges, and the empty-code-master guard
of line 41, are the error exits; the required-column backfill of lines
184–193 adds nothing because every required column already exists in the
merged table.  Returns the final IP fact table. -/
def merge_data_ip (inp : MergeInputs) : Except String (List IpRow) :=
  if inp.codeMaster = [] then
    .error "code_master_df is empty"
  else if ¬ ((inp.admission.map fun a => a.ip_no).Nodup ∧
             (inp.discharge.map fun d => d.ip_no).Nodup) then
    .error "merge admission/discharge: one_to_one"
  else if ¬ (inp.patient.map fun p => p.ptn_no).Nodup then
    .error "merge patient: many_to_one"
  else if ¬ (((stagePatient (stageDischarge inp.admission inp.discharge)
                inp.patient).map fun r => r.ip_no).Nodup ∧
             ((aggDetail inp.detail).map fun g => g.ip_no).Nodup) then
    .error "merge ip_detail_agg: one_to_one"
  else if ¬ (inp.codeMaster.map fun c => c.srv_desc_mapping).Nodup then
    .error "merge Group: many_to_one"
  else if ¬ (inp.doctorMaster.map fun d => d.doctor_mapping).Nodup then
    .error "merge specialty: many_to_one"
  else if ¬ (inp.tpaData.map fun v => v.voucher_number).Nodup then
    .error "merge TPA data: many_to_one"
  else
    .ok (stageTpaCorporate (stageExpired (dedupStage (mergeCore inp)) inp.expired))

/-! ## Remote spreadsheet loading (`scripts/data_loader.py`)

`read_sheet_to_df` performs one authenticated fetch and raises on failure;
it is abstracted as an oracle `fetch : Nat → Except String Sheet` giving
the outcome of the n-th call.  A sheet is a list of string-typed rows. -/

/-- String-typed spreadsheet rows, as returned by `read_sheet_to_df`. -/
abbrev Sheet := List (List String)

/-- `for attempt in range(1, retries + 1)` loop body of `load_tpa_sheet`:
on success return the sheet after the one successful call; on any
exception sleep `delay` seconds and try again; when the loop exhausts,
return an empty frame.  The result is paired with the number of fetch
calls made and the total seconds slept. -/
def loadTpaAux (fetch : Nat → Except String Sheet) (delay : Nat) :
    Nat → Nat → Sheet × Nat × Nat
  | _, 0 => ([], 0, 0)
  | attempt, n + 1 =>
    match fetch attempt with
    | .ok df => (df, 1, 0)
    | .error _ =>
      let (r, calls, slept) := loadTpaAux fetch delay (attempt + 1) n
      (r, calls + 1, slept + delay)

/-- `load_tpa_sheet(url, sheet_name, retries=5, delay=3)` from
`scripts/data_loader.py` lines 35–53. -/
def load_tpa_sheet (fetch : Nat → Except String Sheet)
    (retries : Nat := 5) (delay : Nat := 3) : Sheet × Nat × Nat :=
  loadTpaAux fetch delay 1 retries

/-- The `tpa_data_df` step of `load_all_data` (lines 145–150): it calls
`read_sheet_to_df` directly — *not* `load_tpa_sheet` — inside no
`try`/`except`, so a fetch failure propagates as an exception. -/
def load_all_data_tpa (fetch : Nat → Except String Sheet) : Except String Sheet :=
  fetch 1

/-! ## `filter_ip_data` (`dashboard/filters.py` lines 10–113) -/

/-- A string-valued filter argument: a single name or a list of names
(`doc_name`, `ref_name`, ... accept either). -/
inductive StrQuery where
  | single : String → StrQuery
  | multi : List String → StrQuery
deriving Repr, DecidableEq

/-- Python truthiness of a supplied filter argument (`if doc_name:`):
the empty string and the empty list are falsy and disable the filter. -/
def StrQuery.truthy : StrQuery → Bool
  | .single s => !s.isEmpty
  | .multi l => !l.isEmpty

/-- Python `str.lower` (ASCII restriction), as `.str.lower()` applies it. -/
def lowerStr (s : String) : String :=
  ⟨s.data.map Char.toLower⟩

/-- Case-insensitive match of one cell against the filter argument; a
missing cell (`NaN`) compares false and is never an error
(`.str.lower()` keeps it `NaN`, and `NaN == x` / `NaN.isin(...)` are
false). -/
def strMatch (q : StrQuery) (cell : Option String) : Bool :=
  match cell with
  | none => false
  | some v =>
    match q with
    | .single s => lowerStr v = lowerStr s
    | .multi l => (l.map lowerStr).contains (lowerStr v)

/-- The date filter keeps rows whose (coerced) discharge date lies in the
closed interval; an unparsable date (`NaT`) compares false both ways. -/
def dateMatch (p : Int × Int) (d : Option Int) : Bool :=
  match d with
  | none => false
  | some x => p.1 ≤ x && x ≤ p.2

/-- The arguments of `filter_ip_data`; `none` is an absent (`None`)
argument. -/
structure FilterArgs where
  date_filter : Option (Int × Int) := none
  doc_name : Option StrQuery := none
  ref_name : Option StrQuery := none
  consultant_specialty : Option StrQuery := none
  group : Option StrQuery := none
  referral_specialty : Option StrQuery := none
  credit_company : Option StrQuery := none
  tpa_corporate : Option StrQuery := none
  patient_expired : Option StrQuery := none
  case_type : Option StrQuery := none
deriving Repr, DecidableEq

/-- One `if <arg>:` guarded filtering statement: executed only when the
argument is supplied and truthy. -/
def optStep (q : Option StrQuery) (get : IpRow → Option String) :
    List (List IpRow → List IpRow) :=
  match q with
  | none => []
  | some qq => if qq.truthy then [fun d => d.filter fun r => strMatch qq (get r)] else []

/-- The filtering statements of `filter_ip_data` that actually execute,
in the function's order (date, doctor, referrer, consultant specialty,
group, referral specialty, credit company, TPA/corporate, expiry flag,
case type). -/
def stepFns (args : FilterArgs) : List (List IpRow → List IpRow) :=
  (match args.date_filter with
   | none => []
   | some p => [fun d => d.filter fun r => dateMatch p r.dschg_dt]) ++
  optStep args.doc_name (fun r => r.DocName) ++
  optStep args.ref_name (fun r => r.refname) ++
  optStep args.consultant_specialty (fun r => r.consultant_specialty) ++
  optStep args.group (fun r => r.Group) ++
  optStep args.referral_specialty (fun r => r.referral_specialty) ++
  optStep args.credit_company (fun r => r.credit_company) ++
  optStep args.tpa_corporate (fun r => r.tpa_corporate) ++
  optStep args.patient_expired (fun r => r.patient_expired) ++
  optStep args.case_type (fun r => r.cse_typ_dcd)

/-- `filter_ip_data(df, ...)` as a value-level function: start from the
copy of `df` and run each executed filtering statement in order. -/
def filter_ip_data (df : List IpRow) (args : FilterArgs) : List IpRow :=
  (stepFns args).foldl (fun d f => f d) df

/-- The Python heap, restricted to dataframe objects: cell `i` holds the
i-th allocated frame.  `filter_ip_data` reads its argument, allocates
`df.copy()` (line 42), and every executed filtering statement allocates a
fresh frame (boolean indexing copies); nothing writes an existing cell. -/
abbrev DfHeap := List (List IpRow)

/-- `filter_ip_data` at the heap level: takes the heap and the index of
the argument frame, returns the extended heap and the index of the result
frame. -/
def filter_ip_data_heap (h : DfHeap) (i : Nat) (args : FilterArgs) :
    DfHeap × Nat :=
  -- line 42: `filtered_df = df.copy()`
  let start := (h.getD i [], (h ++ [h.getD i []], h.length))
  (stepFns args).foldl
    (fun acc f =>
      let v := f acc.1
      (f acc.1, (acc.2.1 ++ [v], acc.2.1.length)))
    start |>.2

/-! # Claims -/

/-- C2.  For every admission row whose five monetary cells are actual
numbers, the computed revenue follows the stated priority order: a
positive settlement amount is returned exactly; otherwise a positive
gross settlement yields gross plus deposit balance; otherwise a positive
approved amount yields approved plus deposit balance; otherwise the raw
bill amount is returned. -/
theorem compute_revenue_priority (s g d a b : ℚ) :
    (0 < s →
      compute_revenue ⟨some s, some g, some d, some a, some b⟩ = some s) ∧
    (s ≤ 0 → 0 < g →
      compute_revenue ⟨some s, some g, some d, some a, some b⟩ = some (g + d)) ∧
    (s ≤ 0 → g ≤ 0 → 0 < a →
      compute_revenue ⟨some s, some g, some d, some a, some b⟩ = some (a + d)) ∧
    (s ≤ 0 → g ≤ 0 → a ≤ 0 →
      compute_revenue ⟨some s, some g, some d, some a, some b⟩ = some b) := by
  refine ⟨fun hs => ?_, fun hs hg => ?_, fun hs hg ha => ?_, fun hs hg ha => ?_⟩ <;>
    simp only [compute_revenue, toNumOr0_eq, gtZero, addN, decide_eq_true_eq]
  · rw [if_pos hs]
  · rw [if_neg (not_lt.2 hs), if_pos hg]
  · rw [if_neg (not_lt.2 hs), if_neg (not_lt.2 hg), if_pos ha]
  · rw [if_neg (not_lt.2 hs), if_neg (not_lt.2 hg), if_neg (not_lt.2 ha)]

/-- Witness for C2: the four priority branches at concrete inputs. -/
theorem compute_revenue_priority_witness :
    compute_revenue ⟨some 5, some 2, some 3, some 4, some 7⟩ = some 5 ∧
    compute_revenue ⟨some 0, some 2, some 3, some 4, some 7⟩ = some 5 ∧
    compute_revenue ⟨some 0, some 0, some 3, some 4, some 7⟩ = some 7 ∧
    compute_revenue ⟨some 0, some 0, some 3, some 0, some 7⟩ = some 7 :=
  ⟨(compute_revenue_priority 5 2 3 4 7).1 (by norm_num),
   by
    have h := (compute_revenue_priority 0 2 3 4 7).2.1 le_rfl (by norm_num)
    norm_num at h
    exact h,
   by
    have h := (compute_revenue_priority 0 0 3 4 7).2.2.1 le_rfl le_rfl (by norm_num)
    norm_num at h
    exact h,
   (compute_revenue_priority 0 0 3 0 7).2.2.2 le_rfl le_rfl le_rfl⟩

/-- C6.  The age-banding function sends every age strictly below 18 to
`"Less than 18 years"`, every age in `[18, 65)` to `"Less than 65
years"`, every age at least 65 to `"Greater than equal 65 years"`, and a
non-numeric age (one on which `float(...)` raises) to `"Unknown"`. -/
theorem get_age_group_bands :
    (∀ a : ℚ, a < 18 → get_age_group (.num a) = "Less than 18 years") ∧
    (∀ a : ℚ, 18 ≤ a → a < 65 → get_age_group (.num a) = "Less than 65 years") ∧
    (∀ a : ℚ, 65 ≤ a → get_age_group (.num a) = "Greater than equal 65 years") ∧
    get_age_group .nonNumeric = "Unknown" := by
  refine ⟨fun a h => ?_, fun a h1 h2 => ?_, fun a h => ?_, rfl⟩
  · simp only [get_age_group]
    rw [if_pos h]
  · simp only [get_age_group]
    rw [if_neg (not_lt.2 h1), if_pos h2]
  · simp only [get_age_group]
    rw [if_neg (not_lt.2 (by linarith)), if_neg (not_lt.2 h)]

/-- Witness for C6: the spec's sample points 17.9, 18, 64.9, 65 and a
non-numeric age. -/
theorem get_age_group_bands_witness :
    get_age_group (.num (179 / 10)) = "Less than 18 years" ∧
    get_age_group (.num 18) = "Less than 65 years" ∧
    get_age_group (.num (649 / 10)) = "Less than 65 years" ∧
    get_age_group (.num 65) = "Greater than equal 65 years" ∧
    get_age_group .nonNumeric = "Unknown" :=
  ⟨get_age_group_bands.1 _ (by norm_num),
   get_age_group_bands.2.1 _ le_rfl (by norm_num),
   get_age_group_bands.2.1 _ (by norm_num) (by norm_num),
   get_age_group_bands.2.2.1 _ le_rfl,
   get_age_group_bands.2.2.2⟩

/-- When every fetch attempt fails, the retry loop makes exactly `n`
calls, sleeps `delay` seconds after each, and falls through to the empty
frame. -/
theorem loadTpaAux_all_fail (fetch : Nat → Except String Sheet) (delay : Nat)
    (e : String) (hf : ∀ n, fetch n = .error e) :
    ∀ n a, loadTpaAux fetch delay a n = ([], n, n * delay) := by
  intro n
  induction n with
  | zero => intro a; simp [loadTpaAux]
  | succ m ih =>
    intro a
    simp only [loadTpaAux, hf a, ih (a + 1)]
    refine congrArg _ (congrArg _ ?_)
    ring

/-- C8.  `load_tpa_sheet` retries the fetch a bounded, fixed number of
times (5) with a fixed delay (3 s) and degrades to an empty table after
exhausting them — but `load_all_data` calls the raw fetch directly, so
there the same failure propagates as an exception instead. -/
theorem tpa_fetch_retry_divergence (fetch : Nat → Except String Sheet)
    (e : String) (hf : ∀ n, fetch n = .error e) :
    load_tpa_sheet fetch 5 3 = ([], 5, 15) ∧
    load_all_data_tpa fetch = .error e := by
  constructor
  · simpa using loadTpaAux_all_fail fetch 3 e hf 5 1
  · exact hf 1

/-- Witness for C8: a fetch that raises an SSL error on every attempt. -/
theorem tpa_fetch_retry_divergence_witness :
    load_tpa_sheet (fun _ => .error "SSLError") 5 3 = ([], 5, 15) ∧
    load_all_data_tpa (fun _ => .error "SSLError") = .error "SSLError" :=
  tpa_fetch_retry_divergence (fun _ => .error "SSLError") "SSLError" (fun _ => rfl)

/-! ### Character-level lemmas for the name cleaner -/

theorem toNat_ofNat_valid (n : Nat) (h : n.isValidChar) :
    (Char.ofNat n).toNat = n := by
  simp [Char.ofNat, dif_pos h, Char.ofNatAux, Char.toNat, UInt32.toNat]

theorem char_le_toNat {a b : Char} (h : a ≤ b) : a.toNat ≤ b.toNat := by
  rw [Char.le_def, UInt32.le_def, BitVec.le_def] at h
  exact h

/-- On a lower-case ASCII letter, `upperChar` lands in the upper-case
codepoint band `[65, 90]`. -/
theorem upperChar_toNat_of_lower {c : Char} (h1 : 'a' ≤ c) (h2 : c ≤ 'z') :
    (upperChar c).toNat = c.toNat - 32 := by
  have hb1 : 97 ≤ c.toNat := char_le_toNat h1
  have hb2 : c.toNat ≤ 122 := char_le_toNat h2
  have hv : (c.toNat - 32).isValidChar := Or.inl (by omega)
  simp only [upperChar, if_pos (And.intro h1 h2)]
  exact toNat_ofNat_valid _ hv

/-- `upperChar` can only output a character with codepoint below 65 by
leaving its input untouched. -/
theorem upperChar_eq_small {c d : Char} (hd : d.toNat < 65)
    (h : upperChar c = d) : c = d := by
  by_cases hc : 'a' ≤ c ∧ c ≤ 'z'
  · exfalso
    have hb1 : 97 ≤ c.toNat := char_le_toNat hc.1
    have := upperChar_toNat_of_lower hc.1 hc.2
    rw [h] at this
    omega
  · rwa [upperChar, if_neg hc] at h

theorem upperChar_idem (c : Char) : upperChar (upperChar c) = upperChar c := by
  by_cases hc : 'a' ≤ c ∧ c ≤ 'z'
  · have ha : ('a').toNat = 97 := rfl
    have hb1 : 97 ≤ c.toNat := char_le_toNat hc.1
    have hb2 : c.toNat ≤ 122 := char_le_toNat hc.2
    have ht : (upperChar c).toNat = c.toNat - 32 := upperChar_toNat_of_lower hc.1 hc.2
    have hnot : ¬ ('a' ≤ upperChar c ∧ upperChar c ≤ 'z') := by
      rintro ⟨hl, _⟩
      have h97 := char_le_toNat hl
      rw [ha, ht] at h97
      omega
    conv_lhs => rw [upperChar]
    rw [if_neg hnot]
  · have h0 : upperChar c = c := by rw [upperChar, if_neg hc]
    rw [h0, h0]

/-- The characters deleted by `re.sub(r"[().]", "")`. -/
def isParenDot (c : Char) : Bool :=
  c = '(' || c = ')' || c = '.'

theorem removeParens_eq_filter (l : List Char) :
    removeParens l = l.filter fun c => !isParenDot c := by
  simp [removeParens, isParenDot]

theorem not_isParenDot_of_mem_removeParens {l : List Char} {c : Char}
    (h : c ∈ removeParens l) : isParenDot c = false := by
  rw [removeParens_eq_filter] at h
  simpa using (List.of_mem_filter h)

theorem not_isPySpace_of_mem_stripWs {l : List Char} {c : Char}
    (h : c ∈ stripWs l) : isPySpace c = false := by
  simpa using (List.of_mem_filter h)

theorem mem_of_mem_stripWs {l : List Char} {c : Char}
    (h : c ∈ stripWs l) : c ∈ l :=
  List.mem_of_mem_filter h

theorem mem_of_mem_pyStrip {l : List Char} {c : Char}
    (h : c ∈ pyStrip l) : c ∈ l := by
  simp only [pyStrip, List.mem_reverse] at h
  have h2 := (List.dropWhile_sublist (l := (l.dropWhile isPySpace).reverse)
    (p := isPySpace)).mem h
  rw [List.mem_reverse] at h2
  exact (List.dropWhile_sublist (l := l) (p := isPySpace)).mem h2

theorem dropWhile_eq_self_of_not {l : List Char}
    (h : ∀ c ∈ l, isPySpace c = false) : l.dropWhile isPySpace = l := by
  cases l with
  | nil => rfl
  | cons a t =>
    rw [List.dropWhile_cons_of_neg]
    simp [h a (List.mem_cons_self a t)]

theorem pyStrip_eq_self_of_not {l : List Char}
    (h : ∀ c ∈ l, isPySpace c = false) : pyStrip l = l := by
  simp only [pyStrip]
  rw [dropWhile_eq_self_of_not h, dropWhile_eq_self_of_not, List.reverse_reverse]
  intro c hc
  exact h c (List.mem_reverse.1 hc)

theorem map_upperChar_idem (l : List Char) :
    (l.map upperChar).map upperChar = l.map upperChar := by
  induction l with
  | nil => rfl
  | cons a t ih => simp [ih, upperChar_idem]

/-- Every character of a cleaned name avoids the deleted punctuation. -/
theorem cleanName_no_parenDot {s : String} {c : Char}
    (h : c ∈ (cleanName s).data) : isParenDot c = false := by
  simp only [cleanName] at h
  rcases List.mem_map.1 h with ⟨y, hy, rfl⟩
  by_contra hpd
  have hpd' : isParenDot (upperChar y) = true := by
    rcases Bool.eq_false_or_eq_true (isParenDot (upperChar y)) with hb | hb
    · exact hb
    · exact absurd hb hpd
  have hsmall : (upperChar y).toNat < 65 := by
    simp only [isParenDot, Bool.or_eq_true, decide_eq_true_eq] at hpd'
    rcases hpd' with (h | h) | h <;> rw [h] <;> decide
  have hy' : y ∈ removeParens (subHonorifics s.data) :=
    mem_of_mem_stripWs (mem_of_mem_pyStrip hy)
  have hyeq : y = upperChar y := upperChar_eq_small hsmall rfl
  have : isParenDot y = false := not_isParenDot_of_mem_removeParens hy'
  rw [hyeq] at this
  rw [this] at hpd'
  cases hpd'

/-- Every character of a cleaned name avoids whitespace. -/
theorem cleanName_no_space {s : String} {c : Char}
    (h : c ∈ (cleanName s).data) : isPySpace c = false := by
  simp only [cleanName] at h
  rcases List.mem_map.1 h with ⟨y, hy, rfl⟩
  by_contra hws
  have hws' : isPySpace (upperChar y) = true := by
    rcases Bool.eq_false_or_eq_true (isPySpace (upperChar y)) with hb | hb
    · exact hb
    · exact absurd hb hws
  have hsmall : (upperChar y).toNat < 65 := by
    simp only [isPySpace, Bool.or_eq_true, decide_eq_true_eq] at hws'
    rcases hws' with ((((h | h) | h) | h) | h) | h <;> rw [h] <;> decide
  have hyeq : y = upperChar y := upperChar_eq_small hsmall rfl
  have : isPySpace y = false :=
    not_isPySpace_of_mem_stripWs (mem_of_mem_pyStrip hy)
  rw [hyeq] at this
  rw [this] at hws'
  cases hws'

/-- A cleaned name is entirely upper-cased. -/
theorem cleanName_map_upper (s : String) :
    (cleanName s).data.map upperChar = (cleanName s).data := by
  simp only [cleanName]
  exact map_upperChar_idem _

/-- C5 counterexample.  `clean_name` is not idempotent: cleaning `"D R"`
once yields `"DR"`, but cleaning it a second time deletes `"DR"` as an
honorific, yielding `""`. -/
theorem clean_name_not_idempotent :
    cleanName (cleanName "D R") ≠ cleanName "D R" ∧
    cleanName "D R" = "DR" ∧ cleanName (cleanName "D R") = "" := by
  refine ⟨?_, by decide, by decide⟩
  decide

/-- C5 (amended).  `clean_name` is idempotent on every input whose cleaned
form no longer contains an honorific token (`Dr`/`Mr`/`Mrs`,
case-insensitively, at word boundaries) — equivalently, whenever the
honorific pass leaves the cleaned name unchanged.  (The unamended claim
fails: see `clean_name_not_idempotent`.) -/
theorem clean_name_idempotent_of_no_honorific (s : String)
    (h : subHonorifics (cleanName s).data = (cleanName s).data) :
    cleanName (cleanName s) = cleanName s := by
  have hparen : removeParens (cleanName s).data = (cleanName s).data := by
    rw [removeParens_eq_filter]
    apply List.filter_eq_self.2
    intro c hc
    simp [cleanName_no_parenDot hc]
  have hws : stripWs (cleanName s).data = (cleanName s).data := by
    apply List.filter_eq_self.2
    intro c hc
    simp [cleanName_no_space hc]
  have hstrip : pyStrip (cleanName s).data = (cleanName s).data :=
    pyStrip_eq_self_of_not (fun c hc => cleanName_no_space hc)
  show String.mk _ = cleanName s
  rw [h, hparen, hws, hstrip, cleanName_map_upper]

/-- Witness for C5 (amended): a name with an honorific, punctuation and
blanks whose cleaned form is honorific-free. -/
theorem clean_name_idempotent_witness :
    subHonorifics (cleanName "Dr. John (MD)").data = (cleanName "Dr. John (MD)").data ∧
    cleanName (cleanName "Dr. John (MD)") = cleanName "Dr. John (MD)" :=
  ⟨by decide, clean_name_idempotent_of_no_honorific "Dr. John (MD)" (by decide)⟩

/-! ### The charge-line aggregation (C7) -/

/-- The aggregated `amt` recorded for admission `ip`, if any. -/
def amtLookup (l : List AggRow) (ip : String) : Option ℚ :=
  (l.find? fun g => g.ip_no = ip).map fun g => g.amt

/-- The sum of the raw line amounts an admission carries in a charge-line
table (the pandas sum skips `NaN`; missing amounts contribute nothing). -/
def lineAmtSum (rows : List DetailRow) (ip : String) : ℚ :=
  ((rows.filter fun r => r.ip_no = ip).map fun r => r.amt.getD 0).sum

theorem amtLookup_cons (g : AggRow) (gs : List AggRow) (ip : String) :
    amtLookup (g :: gs) ip =
      if g.ip_no = ip then some g.amt else amtLookup gs ip := by
  by_cases h : g.ip_no = ip
  · simp [amtLookup, List.find?_cons, h]
  · simp [amtLookup, List.find?_cons, h]

theorem lineAmtSum_cons_self (r : DetailRow) (rs : List DetailRow) :
    lineAmtSum (r :: rs) r.ip_no = r.amt.getD 0 + lineAmtSum rs r.ip_no := by
  simp [lineAmtSum, List.filter_cons]

theorem lineAmtSum_cons_other (r : DetailRow) (rs : List DetailRow)
    (ip : String) (h : ip ≠ r.ip_no) :
    lineAmtSum (r :: rs) ip = lineAmtSum rs ip := by
  have h' : ¬ (r.ip_no = ip) := fun hc => h hc.symm
  simp [lineAmtSum, List.filter_cons, h']

theorem amtLookup_aggInsert_self (acc : List AggRow) (r : DetailRow) :
    amtLookup (aggInsert acc r) r.ip_no =
      some ((amtLookup acc r.ip_no).getD 0 + r.amt.getD 0) := by
  induction acc with
  | nil =>
    simp [aggInsert, amtLookup, List.find?]
  | cons g gs ih =>
    by_cases h : g.ip_no = r.ip_no
    · simp [aggInsert, if_pos h, amtLookup_cons, h]
    · simp only [aggInsert, if_neg h, amtLookup_cons, ih]

theorem amtLookup_aggInsert_other (acc : List AggRow) (r : DetailRow)
    (ip : String) (hne : ip ≠ r.ip_no) :
    amtLookup (aggInsert acc r) ip = amtLookup acc ip := by
  induction acc with
  | nil =>
    simp [aggInsert, amtLookup, List.find?, Ne.symm hne]
  | cons g gs ih =>
    by_cases h : g.ip_no = r.ip_no
    · have hg : ¬ g.ip_no = ip := fun hgip => hne (hgip ▸ h ▸ rfl)
      simp only [aggInsert, if_pos h]
      rw [amtLookup_cons, amtLookup_cons, if_neg hg, if_neg hg]
    · by_cases hg : g.ip_no = ip
      · simp only [aggInsert, if_neg h]
        rw [amtLookup_cons, amtLookup_cons, if_pos hg, if_pos hg]
      · simp only [aggInsert, if_neg h]
        rw [amtLookup_cons, amtLookup_cons, if_neg hg, if_neg hg, ih]

theorem foldl_aggInsert_some (rows : List DetailRow) :
    ∀ (acc : List AggRow) (ip : String) (v : ℚ),
      amtLookup acc ip = some v →
      amtLookup (rows.foldl aggInsert acc) ip = some (v + lineAmtSum rows ip) := by
  induction rows with
  | nil =>
    intro acc ip v hv
    simpa [lineAmtSum] using hv
  | cons r rs ih =>
    intro acc ip v hv
    rw [List.foldl_cons]
    by_cases hip : ip = r.ip_no
    · have h1 := amtLookup_aggInsert_self acc r
      rw [← hip] at h1
      rw [hv] at h1
      have h2 := ih (aggInsert acc r) ip (v + r.amt.getD 0) (by simpa using h1)
      rw [h2]
      have hS : lineAmtSum (r :: rs) ip = r.amt.getD 0 + lineAmtSum rs ip := by
        rw [hip]
        exact lineAmtSum_cons_self r rs
      rw [hS]
      ring_nf
    · have h1 := amtLookup_aggInsert_other acc r ip hip
      rw [hv] at h1
      rw [ih (aggInsert acc r) ip v h1, lineAmtSum_cons_other r rs ip hip]

theorem foldl_aggInsert_none (rows : List DetailRow) :
    ∀ (acc : List AggRow) (ip : String),
      amtLookup acc ip = none →
      ip ∈ rows.map (fun r => r.ip_no) →
      amtLookup (rows.foldl aggInsert acc) ip = some (lineAmtSum rows ip) := by
  induction rows with
  | nil =>
    intro acc ip _ hmem
    simp at hmem
  | cons r rs ih =>
    intro acc ip hnone hmem
    rw [List.foldl_cons]
    by_cases hip : ip = r.ip_no
    · have h1 := amtLookup_aggInsert_self acc r
      rw [← hip] at h1
      rw [hnone] at h1
      have h2 := foldl_aggInsert_some rs (aggInsert acc r) ip
        ((none : Option ℚ).getD 0 + r.amt.getD 0) (by simpa using h1)
      rw [h2]
      have hS : lineAmtSum (r :: rs) ip = r.amt.getD 0 + lineAmtSum rs ip := by
        rw [hip]
        exact lineAmtSum_cons_self r rs
      rw [hS]
      norm_num
    · have h1 := amtLookup_aggInsert_other acc r ip hip
      rw [hnone] at h1
      have hmem' : ip ∈ rs.map (fun r => r.ip_no) := by
        rcases List.mem_map.1 hmem with ⟨w, hw, hwip⟩
        rcases List.mem_cons.1 hw with hw1 | hw2
        · exact absurd (hwip ▸ hw1 ▸ rfl : ip = r.ip_no) hip
        · exact List.mem_map.2 ⟨w, hw2, hwip⟩
      rw [ih (aggInsert acc r) ip h1 hmem', lineAmtSum_cons_other r rs ip hip]

/-- C7.  For every cleaned charge-line table and every admission number
occurring in it, the aggregate produced before the merge
(`groupby('ip_no').agg({'amt': 'sum', ...})`) records exactly the sum of
that admission's individual raw line amounts (exact in `ℚ`; the code's
float sum agrees within floating-point tolerance). -/
theorem aggDetail_amt_eq_sum (rows : List DetailRow) (ip : String)
    (hip : ip ∈ rows.map fun r => r.ip_no) :
    amtLookup (aggDetail rows) ip = some (lineAmtSum rows ip) := by
  apply foldl_aggInsert_none rows [] ip _ hip
  simp [amtLookup, List.find?]

/-- Witness for C7: two admissions, three charge lines, one `NaN` amount
(which the pandas sum skips). -/
theorem aggDetail_amt_eq_sum_witness :
    ("A1" ∈ ([⟨"A1", some 600, some 1, ""⟩, ⟨"B2", some 50, none, ""⟩,
              ⟨"A1", some 400, none, ""⟩, ⟨"A1", none, none, ""⟩] :
        List DetailRow).map (fun r => r.ip_no)) ∧
    amtLookup (aggDetail [⟨"A1", some 600, some 1, ""⟩, ⟨"B2", some 50, none, ""⟩,
              ⟨"A1", some 400, none, ""⟩, ⟨"A1", none, none, ""⟩]) "A1" =
      some (lineAmtSum [⟨"A1", some 600, some 1, ""⟩, ⟨"B2", some 50, none, ""⟩,
              ⟨"A1", some 400, none, ""⟩, ⟨"A1", none, none, ""⟩] "A1") :=
  ⟨by decide, aggDetail_amt_eq_sum _ "A1" (by decide)⟩

/-! ### The reporting filter (C9, C10) -/

theorem optStep_subset {q : Option StrQuery} {get : IpRow → Option String}
    {f : List IpRow → List IpRow} (hf : f ∈ optStep q get) :
    ∀ d r, r ∈ f d → r ∈ d := by
  match q with
  | none => simp [optStep] at hf
  | some qq =>
    by_cases ht : qq.truthy
    · simp only [optStep, if_pos ht, List.mem_singleton] at hf
      subst hf
      intro d r hr
      exact List.mem_of_mem_filter hr
    · simp [optStep, if_neg ht] at hf

theorem optStep_nil {q : Option StrQuery} {get : IpRow → Option String}
    {f : List IpRow → List IpRow} (hf : f ∈ optStep q get) : f [] = [] := by
  match q with
  | none => simp [optStep] at hf
  | some qq =>
    by_cases ht : qq.truthy
    · simp only [optStep, if_pos ht, List.mem_singleton] at hf
      subst hf
      rfl
    · simp [optStep, if_neg ht] at hf

/-- Every executed filtering statement only removes rows. -/
theorem stepFns_subset (args : FilterArgs) :
    ∀ f ∈ stepFns args, ∀ d r, r ∈ f d → r ∈ d := by
  intro f hf
  simp only [stepFns, List.mem_append] at hf
  rcases hf with ((((((((hf | hf) | hf) | hf) | hf) | hf) | hf) | hf) | hf) | hf
  · match hd : args.date_filter with
    | none => rw [hd] at hf; simp at hf
    | some p =>
      rw [hd] at hf
      simp only [List.mem_singleton] at hf
      subst hf
      intro d r hr
      exact List.mem_of_mem_filter hr
  all_goals exact optStep_subset hf

/-- Every executed filtering statement sends the empty frame to itself. -/
theorem stepFns_nil (args : FilterArgs) :
    ∀ f ∈ stepFns args, f [] = [] := by
  intro f hf
  simp only [stepFns, List.mem_append] at hf
  rcases hf with ((((((((hf | hf) | hf) | hf) | hf) | hf) | hf) | hf) | hf) | hf
  · match hd : args.date_filter with
    | none => rw [hd] at hf; simp at hf
    | some p =>
      rw [hd] at hf
      simp only [List.mem_singleton] at hf
      subst hf
      rfl
  all_goals exact optStep_nil hf

theorem foldl_steps_nil (fs : List (List IpRow → List IpRow))
    (hn : ∀ f ∈ fs, f [] = []) :
    fs.foldl (fun d f => f d) [] = [] := by
  induction fs with
  | nil => rfl
  | cons f fs ih =>
    rw [List.foldl_cons, hn f (List.mem_cons_self f fs)]
    exact ih fun g hg => hn g (List.mem_cons_of_mem f hg)

/-- If some executed statement empties every subframe of `df`, the whole
pipeline returns the empty frame. -/
theorem foldl_steps_eq_nil {fs : List (List IpRow → List IpRow)}
    {f0 : List IpRow → List IpRow}
    (hsub : ∀ f ∈ fs, ∀ d r, r ∈ f d → r ∈ d)
    (hnil : ∀ f ∈ fs, f [] = []) :
    ∀ {df : List IpRow}, f0 ∈ fs → (∀ d, (∀ r ∈ d, r ∈ df) → f0 d = []) →
      fs.foldl (fun d f => f d) df = [] := by
  induction fs with
  | nil => intro df hmem; simp at hmem
  | cons f fs ih =>
    intro df hmem hkill
    rw [List.foldl_cons]
    rcases List.mem_cons.1 hmem with rfl | hmem'
    · rw [hkill df fun r hr => hr]
      exact foldl_steps_nil fs fun g hg => hnil g (List.mem_cons_of_mem _ hg)
    · exact ih (fun g hg => hsub g (List.mem_cons_of_mem _ hg))
        (fun g hg => hnil g (List.mem_cons_of_mem _ hg)) hmem'
        (fun d hd => hkill d fun r hr =>
          hsub f (List.mem_cons_self _ _) df r (hd r hr))

/-- C9.  Filtering by a supplied (truthy) doctor-name value that matches
no row case-insensitively returns the empty frame — and, the model being
total, never an error: a missing `DocName` cell simply compares false. -/
theorem filter_ip_data_no_match_empty (df : List IpRow) (args : FilterArgs)
    (q : StrQuery) (hq : args.doc_name = some q) (ht : q.truthy = true)
    (hnomatch : ∀ r ∈ df, strMatch q r.DocName = false) :
    filter_ip_data df args = [] := by
  have hdoc : optStep args.doc_name (fun r => r.DocName) =
      [fun d => d.filter fun r => strMatch q r.DocName] := by
    rw [hq]
    simp [optStep, ht]
  have hmem : (fun d => d.filter fun r => strMatch q r.DocName) ∈ stepFns args := by
    rw [stepFns]
    refine List.mem_append.2 (Or.inl ?_)
    refine List.mem_append.2 (Or.inl ?_)
    refine List.mem_append.2 (Or.inl ?_)
    refine List.mem_append.2 (Or.inl ?_)
    refine List.mem_append.2 (Or.inl ?_)
    refine List.mem_append.2 (Or.inl ?_)
    refine List.mem_append.2 (Or.inl ?_)
    refine List.mem_append.2 (Or.inl ?_)
    refine List.mem_append.2 (Or.inr ?_)
    rw [hdoc]
    exact List.mem_singleton.2 rfl
  refine foldl_steps_eq_nil (stepFns_subset args) (stepFns_nil args) hmem ?_
  intro d hd
  apply List.filter_eq_nil_iff.2
  intro r hr
  rw [hnomatch r (hd r hr)]
  exact Bool.false_ne_true

/-- Witness for C9: a one-row table and the absent doctor `"zed"`. -/
theorem filter_ip_data_no_match_empty_witness :
    filter_ip_data [{ ip_no := "A1", DocName := some "House" }]
      { doc_name := some (.single "zed") } = [] :=
  filter_ip_data_no_match_empty _ _ (.single "zed") rfl (by decide) (by decide)

/-- The run of heap-level filtering statements only appends fresh frames,
keeps the result register pointing at the last frame, and computes the
value-level pipeline. -/
theorem heap_foldl_invariant (fs : List (List IpRow → List IpRow)) :
    ∀ (v : List IpRow) (hp : DfHeap) (j : Nat),
      hp.getD j [] = v → j < hp.length →
      (∃ t, (fs.foldl
          (fun acc f => (f acc.1, (acc.2.1 ++ [f acc.1], acc.2.1.length)))
          (v, (hp, j))).2.1 = hp ++ t) ∧
      (fs.foldl (fun acc f => (f acc.1, (acc.2.1 ++ [f acc.1], acc.2.1.length)))
          (v, (hp, j))).1 = fs.foldl (fun d f => f d) v ∧
      ((fs.foldl (fun acc f => (f acc.1, (acc.2.1 ++ [f acc.1], acc.2.1.length)))
          (v, (hp, j))).2.1.getD
        (fs.foldl (fun acc f => (f acc.1, (acc.2.1 ++ [f acc.1], acc.2.1.length)))
          (v, (hp, j))).2.2 []) =
        (fs.foldl (fun acc f => (f acc.1, (acc.2.1 ++ [f acc.1], acc.2.1.length)))
          (v, (hp, j))).1 := by
  induction fs with
  | nil =>
    intro v hp j hget _
    exact ⟨⟨[], by simp⟩, rfl, hget⟩
  | cons f fs ih =>
    intro v hp j hget hj
    rw [List.foldl_cons, List.foldl_cons]
    have hcat : (hp ++ [f v]).getD hp.length [] = f v := by
      rw [List.getD_append_right hp [f v] [] hp.length le_rfl]
      simp
    have hlen : hp.length < (hp ++ [f v]).length := by
      simp
    obtain ⟨⟨t, hext⟩, hval, hres⟩ := ih (f v) (hp ++ [f v]) hp.length hcat hlen
    refine ⟨⟨[f v] ++ t, ?_⟩, hval, hres⟩
    rw [hext, List.append_assoc]

/-- C10.  `filter_ip_data` never mutates its input: after the call every
pre-existing heap cell — in particular the argument frame — is unchanged
(the function works on `df.copy()` and each statement allocates a fresh
frame), the result register holds the value-level filter result, and with
every filter argument absent that result is the input, row for row. -/
theorem filter_ip_data_no_mutation (h : DfHeap) (i : Nat) (args : FilterArgs)
    (hi : i < h.length) :
    (∀ k, k < h.length →
      (filter_ip_data_heap h i args).1.getD k [] = h.getD k []) ∧
    (filter_ip_data_heap h i args).1.getD (filter_ip_data_heap h i args).2 [] =
      filter_ip_data (h.getD i []) args ∧
    (args = {} → filter_ip_data (h.getD i []) args = h.getD i []) := by
  have hcat : (h ++ [h.getD i []]).getD h.length [] = h.getD i [] := by
    rw [List.getD_append_right h [h.getD i []] [] h.length le_rfl]
    simp
  have hlen : h.length < (h ++ [h.getD i []]).length := by simp
  obtain ⟨⟨t, hext⟩, hval, hres⟩ :=
    heap_foldl_invariant (stepFns args) (h.getD i []) (h ++ [h.getD i []])
      h.length hcat hlen
  have hfh : filter_ip_data_heap h i args =
      ((stepFns args).foldl
        (fun acc f => (f acc.1, (acc.2.1 ++ [f acc.1], acc.2.1.length)))
        (h.getD i [], (h ++ [h.getD i []], h.length))).2 := rfl
  refine ⟨?_, ?_, ?_⟩
  · intro k hk
    rw [hfh, hext, List.append_assoc]
    exact List.getD_append h _ [] k hk
  · rw [hfh]
    exact hres.trans hval
  · intro hargs
    subst hargs
    rfl

/-- Witness for C10: a two-frame heap, once with no filters and once with
a doctor filter. -/
theorem filter_ip_data_no_mutation_witness :
    ((filter_ip_data_heap [[{ ip_no := "A1" }]] 0 {}).1.getD 0 [] =
        [{ ip_no := "A1" }] ∧
      (filter_ip_data_heap [[{ ip_no := "A1" }]] 0
          {}).1.getD (filter_ip_data_heap [[{ ip_no := "A1" }]] 0 {}).2 [] =
        filter_ip_data [{ ip_no := "A1" }] {}) ∧
    filter_ip_data ([{ ip_no := "A1" }] : List IpRow) {} = [{ ip_no := "A1" }] := by
  have h := filter_ip_data_no_mutation [[{ ip_no := "A1" }]] 0 {} (by decide)
  exact ⟨⟨h.1 0 (by decide), h.2.1⟩, h.2.2 rfl⟩

/-! ### Revenue apportionment (C3) -/

/-- Truncation toward zero moves a rational by strictly less than 1. -/
theorem truncZ_err (q : ℚ) : |((truncZ q : ℤ) : ℚ) - q| < 1 := by
  rw [truncZ]
  by_cases h : 0 ≤ q
  · rw [if_pos h]
    have h1 : ((⌊q⌋ : ℤ) : ℚ) ≤ q := Int.floor_le q
    have h2 : q - 1 < ((⌊q⌋ : ℤ) : ℚ) := Int.sub_one_lt_floor q
    rw [abs_lt]
    constructor <;> linarith
  · rw [if_neg h]
    have h1 : q ≤ ((⌈q⌉ : ℤ) : ℚ) := Int.le_ceil q
    have h2 : ((⌈q⌉ : ℤ) : ℚ) < q + 1 := Int.ceil_lt_add_one q
    rw [abs_lt]
    constructor <;> linarith

/-- Summing per-element approximations within 1 stays within the number
of elements (strictly, for a nonempty list). -/
theorem sum_approx_lt (l : List IpRow) (f g : IpRow → ℚ)
    (h : ∀ x ∈ l, |f x - g x| < 1) (hne : l ≠ []) :
    |(l.map f).sum - (l.map g).sum| < (l.length : ℚ) := by
  induction l with
  | nil => exact absurd rfl hne
  | cons x xs ih =>
    match xs with
    | [] =>
      simpa using h x (List.mem_cons_self x [])
    | y :: ys =>
      have hx := h x (List.mem_cons_self x _)
      have hxs := ih (fun z hz => h z (List.mem_cons_of_mem x hz)) (by simp)
      have hsplit :
          ((x :: y :: ys).map f).sum - ((x :: y :: ys).map g).sum =
            (f x - g x) + (((y :: ys).map f).sum - ((y :: ys).map g).sum) := by
        simp [List.map_cons, List.sum_cons]
        ring
      rw [hsplit]
      calc |(f x - g x) + (((y :: ys).map f).sum - ((y :: ys).map g).sum)|
          ≤ |f x - g x| + |((y :: ys).map f).sum - ((y :: ys).map g).sum| :=
            abs_add _ _
        _ < 1 + ((y :: ys).length : ℚ) := by
            exact add_lt_add hx hxs
        _ = ((x :: y :: ys).length : ℚ) := by
            simp [List.length_cons]
            ring

/-- C3 (amended).  Whenever an admission's total raw charge amount in the
table is nonzero and all of its rows carry the same computed revenue `R`
(as the pipeline guarantees), each of its rows receives as `line_revenue`
its share `amt / total · R` truncated to an integer, and those line
revenues sum to the admission's computed revenue up to the accumulated
truncation error, which is strictly less than 1 per row.  (The unamended
claim — the sum matches within tolerance for *every* admission — fails
for a zero-total admission with positive revenue: see
`line_revenue_zero_total_counterexample`.) -/
theorem lineRevenueAssign_apportions (t : List IpRow) (ip : String) (R : ℚ)
    (hR : ∀ r ∈ t, r.ip_no = ip → r.revenue.getD 0 = R)
    (hT : totalAmt t ip ≠ 0) :
    (∀ r ∈ lineRevenueAssign t, r.ip_no = ip →
      r.line_revenue = truncZ (r.amt.getD 0 / totalAmt t ip * R)) ∧
    |(((lineRevenueAssign t).filter fun r => r.ip_no = ip).map fun r =>
        ((r.line_revenue : ℤ) : ℚ)).sum - R| <
      ((t.filter fun r => r.ip_no = ip).length : ℚ) := by
  have hpart1 : ∀ r ∈ lineRevenueAssign t, r.ip_no = ip →
      r.line_revenue = truncZ (r.amt.getD 0 / totalAmt t ip * R) := by
    intro r hr hip
    rcases List.mem_map.1 hr with ⟨r0, hr0, rfl⟩
    simp only at hip
    rw [← hip] at hT ⊢
    simp only [if_neg hT]
    rw [hR r0 hr0 hip]
  refine ⟨hpart1, ?_⟩
  -- the filtered output is the filtered input, mapped
  have hfilter : ((lineRevenueAssign t).filter fun r => r.ip_no = ip) =
      (t.filter fun r => r.ip_no = ip).map fun r =>
        { r with line_revenue :=
            if totalAmt t r.ip_no = 0 then 0
            else truncZ (r.amt.getD 0 / totalAmt t r.ip_no * r.revenue.getD 0) } := by
    rw [lineRevenueAssign, List.filter_map]
    congr 1
  set l := t.filter fun r => r.ip_no = ip with hl
  have hmem_ip : ∀ r ∈ l, r.ip_no = ip := by
    intro r hr
    have := List.of_mem_filter hr
    simpa using this
  have hmem_t : ∀ r ∈ l, r ∈ t := fun r hr => List.mem_of_mem_filter hr
  have hlsum : (l.map fun r => r.amt.getD 0).sum = totalAmt t ip := rfl
  have hne : l ≠ [] := by
    intro h0
    apply hT
    rw [← hlsum, h0]
    rfl
  -- rewrite the mapped line revenues via part 1
  have hmapeq : ((lineRevenueAssign t).filter fun r => r.ip_no = ip).map
        (fun r => ((r.line_revenue : ℤ) : ℚ)) =
      l.map fun r => ((truncZ (r.amt.getD 0 / totalAmt t ip * R) : ℤ) : ℚ) := by
    rw [hfilter, List.map_map]
    apply List.map_congr_left
    intro r hr
    simp only [Function.comp]
    rw [hmem_ip r hr, if_neg hT, hR r (hmem_t r hr) (hmem_ip r hr)]
  rw [hmapeq]
  -- the exact shares sum to R
  have hshares : (l.map fun r => r.amt.getD 0 / totalAmt t ip * R).sum = R := by
    have hfun : (l.map fun r => r.amt.getD 0 / totalAmt t ip * R) =
        l.map fun r => r.amt.getD 0 * (R / totalAmt t ip) :=
      List.map_congr_left fun r _ => by rw [div_mul_eq_mul_div, mul_div_assoc]
    rw [hfun, List.sum_map_mul_right, hlsum]
    field_simp
  have happrox := sum_approx_lt l
    (fun r => ((truncZ (r.amt.getD 0 / totalAmt t ip * R) : ℤ) : ℚ))
    (fun r => r.amt.getD 0 / totalAmt t ip * R)
    (fun r _ => truncZ_err _) hne
  rw [hshares] at happrox
  simpa using happrox

/-- The merge inputs of the C3 counterexample: one admission whose
discharge carries a positive settlement amount but which has no charge
lines at all, so its total raw charge amount is zero. -/
def zeroTotalInputs : MergeInputs :=
  { admission := [{ ip_no := "A1" }],
    discharge := [{ ip_no := "A1", stlmt_amt := some 500 }],
    codeMaster := [{ srv_desc_mapping := "SVC" }] }

/-- C3 counterexample.  In the merged fact table of `zeroTotalInputs` the
admission `"A1"` has computed revenue 500 but total raw charge amount 0,
so its single line revenue is 0 and the line revenues sum to 0 — off the
computed revenue by 500, far beyond the per-row truncation tolerance. -/
theorem line_revenue_zero_total_counterexample :
    ((merge_data_ip zeroTotalInputs).toOption.getD []).map
        (fun r => (r.ip_no, r.revenue, r.amt, r.line_revenue)) =
      [("A1", some 500, some 0, 0)] ∧
    ¬ |((((merge_data_ip zeroTotalInputs).toOption.getD []).filter
          fun r => r.ip_no = "A1").map fun r =>
            ((r.line_revenue : ℤ) : ℚ)).sum - 500| <
        ((((merge_data_ip zeroTotalInputs).toOption.getD []).filter
          fun r => r.ip_no = "A1").length : ℚ) := by
  constructor
  · simp [merge_data_ip, mergeCore, stageDischarge, stagePatient, stageAgg, stageCode,
        stageConsultant, stageReferral, stageTpa, stageCreditFix, stageCompanyKey,
        stageTpaMap, stageRevenue, lineRevenueAssign, totalAmt, dedupStage, stageExpired,
        stageTpaCorporate, joinFirst, joinExpand, aggDetail, aggInsert, compute_revenue,
        toNumOr0, gtZero, addN, truncZ, zeroTotalInputs, dedupByKey,
        List.find?, List.filter, Except.toOption]
  · simp [merge_data_ip, mergeCore, stageDischarge, stagePatient, stageAgg, stageCode,
        stageConsultant, stageReferral, stageTpa, stageCreditFix, stageCompanyKey,
        stageTpaMap, stageRevenue, lineRevenueAssign, totalAmt, dedupStage, stageExpired,
        stageTpaCorporate, joinFirst, joinExpand, aggDetail, aggInsert, compute_revenue,
        toNumOr0, gtZero, addN, truncZ, zeroTotalInputs, dedupByKey,
        List.find?, List.filter, Except.toOption]

/-- Witness for C3 (amended): a two-line admission with revenue 1001 and
raw amounts 600 and 400; each line is truncated and the sum 1000 lands
within 2 of the revenue. -/
theorem lineRevenueAssign_apportions_witness :
    ((∀ r ∈ lineRevenueAssign
        [{ ip_no := "A1", amt := some 600, revenue := some 1001 },
         { ip_no := "A1", amt := some 400, revenue := some 1001 }], r.ip_no = "A1" →
      r.line_revenue = truncZ (r.amt.getD 0 /
        totalAmt [{ ip_no := "A1", amt := some 600, revenue := some 1001 },
         { ip_no := "A1", amt := some 400, revenue := some 1001 }] "A1" * 1001)) ∧
    |(((lineRevenueAssign
        [{ ip_no := "A1", amt := some 600, revenue := some 1001 },
         { ip_no := "A1", amt := some 400, revenue := some 1001 }]).filter
          fun r => r.ip_no = "A1").map fun r =>
            ((r.line_revenue : ℤ) : ℚ)).sum - 1001| <
      (([{ ip_no := "A1", amt := some 600, revenue := some 1001 },
         { ip_no := "A1", amt := some 400, revenue := some 1001 }].filter
          (fun (r : IpRow) => r.ip_no = "A1")).length : ℚ)) :=
  lineRevenueAssign_apportions _ "A1" 1001
    (by
      intro r hr hip
      rcases List.mem_cons.1 hr with rfl | hr2
      · rfl
      rcases List.mem_cons.1 hr2 with rfl | hr3
      · rfl
      · simp at hr3)
    (by norm_num [totalAmt, List.filter])

/-! ### The end-to-end merge scenario (C4) -/

/-- The spec's end-to-end scenario: one admission `"A1"`, a matching
discharge row with bill amount 1000 and no settlement or approved
amounts, and two charge lines for `"A1"` of amounts 600 and 400 (the
remaining reference tables are empty but for the mandatory non-empty
charge-code master). -/
def e2eInputs : MergeInputs :=
  { admission := [{ ip_no := "A1" }],
    discharge := [{ ip_no := "A1", ptn_no := some "P1", BillAmt := some 1000,
                    dschg_dt := some 5 }],
    detail := [{ ip_no := "A1", amt := some 600 }, { ip_no := "A1", amt := some 400 }],
    codeMaster := [{ srv_desc_mapping := "SVC" }] }

/-- C4 counterexample.  On the end-to-end scenario the merged fact table
holds exactly *one* row for `"A1"`, with line revenue 1000: the two
charge lines are aggregated into a single per-admission amount before the
merge, so no rows apportioned 600 and 400 exist in the fact table. -/
theorem merge_e2e_single_row_counterexample :
    ((merge_data_ip e2eInputs).toOption.getD []).map
        (fun r => (r.ip_no, r.revenue, r.line_revenue)) = [("A1", some 1000, 1000)] ∧
    ((merge_data_ip e2eInputs).toOption.getD []).length = 1 := by
  have hsvc : decide (("" : String) = "SVC") = false := by decide
  constructor
  · simp [hsvc, merge_data_ip, mergeCore, stageDischarge, stagePatient, stageAgg, stageCode,
        stageConsultant, stageReferral, stageTpa, stageCreditFix, stageCompanyKey,
        stageTpaMap, stageRevenue, lineRevenueAssign, totalAmt, dedupStage, stageExpired,
        stageTpaCorporate, joinFirst, joinExpand, aggDetail, aggInsert, compute_revenue,
        toNumOr0, gtZero, addN, truncZ, e2eInputs, dedupByKey,
        List.find?, List.filter, Except.toOption]
    norm_num [Int.floor_eq_iff]
  · simp [hsvc, merge_data_ip, mergeCore, stageDischarge, stagePatient, stageAgg, stageCode,
        stageConsultant, stageReferral, stageTpa, stageCreditFix, stageCompanyKey,
        stageTpaMap, stageRevenue, lineRevenueAssign, totalAmt, dedupStage, stageExpired,
        stageTpaCorporate, joinFirst, joinExpand, aggDetail, aggInsert, compute_revenue,
        toNumOr0, gtZero, addN, truncZ, e2eInputs, dedupByKey,
        List.find?, List.filter, Except.toOption]

/-- C4 (amended).  On the end-to-end scenario `merge_data` produces one
fact row for `"A1"`: total revenue 1000 (the bill amount, no settlement
or approved amounts being present), the two charge lines aggregated into
a single per-admission amount of 1000, line revenue 1000, and the
admission marked not expired. -/
theorem merge_e2e_aggregated :
    ((merge_data_ip e2eInputs).toOption.getD []).map
        (fun r => (r.ip_no, r.revenue, r.amt, r.line_revenue, r.patient_expired)) =
      [("A1", some 1000, some 1000, 1000, some "no")] := by
  have hsvc : decide (("" : String) = "SVC") = false := by decide
  simp [hsvc, merge_data_ip, mergeCore, stageDischarge, stagePatient, stageAgg, stageCode,
        stageConsultant, stageReferral, stageTpa, stageCreditFix, stageCompanyKey,
        stageTpaMap, stageRevenue, lineRevenueAssign, totalAmt, dedupStage, stageExpired,
        stageTpaCorporate, joinFirst, joinExpand, aggDetail, aggInsert, compute_revenue,
        toNumOr0, gtZero, addN, truncZ, e2eInputs, dedupByKey,
        List.find?, List.filter, Except.toOption]
  norm_num [Int.floor_eq_iff]


/-! ### Duplicate resolution (C1) -/

theorem dedupByKey_cons [DecidableEq κ] (key : α → κ) (r : α) (rs : List α) :
    dedupByKey key (r :: rs) = r :: dedupByKey key (rs.filter fun s => key s ≠ key r) := by
  rw [dedupByKey]

theorem mem_of_mem_dedupByKey [DecidableEq κ] (key : α → κ) :
    ∀ (l : List α) (r : α), r ∈ dedupByKey key l → r ∈ l := by
  intro l
  induction l using dedupByKey.induct key with
  | case1 => intro r hr; simp [dedupByKey] at hr
  | case2 x xs ih =>
    intro r hr
    rw [dedupByKey_cons] at hr
    rcases List.mem_cons.1 hr with rfl | hr2
    · exact List.mem_cons_self _ _
    · exact List.mem_cons_of_mem _ (List.mem_of_mem_filter (ih r hr2))

theorem nodup_map_key_dedupByKey [DecidableEq κ] (key : α → κ) :
    ∀ l : List α, ((dedupByKey key l).map key).Nodup := by
  intro l
  induction l using dedupByKey.induct key with
  | case1 => simp [dedupByKey]
  | case2 x xs ih =>
    rw [dedupByKey_cons, List.map_cons, List.nodup_cons]
    refine ⟨?_, ih⟩
    intro hmem
    rcases List.mem_map.1 hmem with ⟨r, hr, hkey⟩
    have hr' := mem_of_mem_dedupByKey key _ r hr
    have hne : key r ≠ key x := by simpa using List.of_mem_filter hr'
    exact hne hkey

theorem find?_filter_eq (xs : List α) (p q : α → Bool)
    (h : ∀ s, p s = true → q s = true) :
    (xs.filter q).find? p = xs.find? p := by
  induction xs with
  | nil => rfl
  | cons x xs ih =>
    by_cases hq : q x = true
    · by_cases hp : p x = true
      · rw [List.filter_cons_of_pos hq, List.find?_cons_of_pos _ hp,
          List.find?_cons_of_pos _ hp]
      · rw [List.filter_cons_of_pos hq,
          List.find?_cons_of_neg _ (by simpa using hp),
          List.find?_cons_of_neg _ (by simpa using hp)]
        exact ih
    · have hp : ¬ p x = true := fun hpx => hq (h x hpx)
      rw [List.filter_cons_of_neg (by simpa using hq),
        List.find?_cons_of_neg _ (by simpa using hp)]
      exact ih

theorem find?_eq_self_of_nodup (l : List IpRow)
    (hnd : (l.map fun r => r.ip_no).Nodup) :
    ∀ r ∈ l, l.find? (fun s => s.ip_no = r.ip_no) = some r := by
  induction l with
  | nil => simp
  | cons x xs ih =>
    intro r hr
    rw [List.map_cons, List.nodup_cons] at hnd
    rcases List.mem_cons.1 hr with rfl | hr2
    · exact List.find?_cons_of_pos _ (by simp)
    · have hne : ¬ (x.ip_no = r.ip_no) := by
        intro he
        exact hnd.1 (he ▸ List.mem_map.2 ⟨r, hr2, rfl⟩)
      rw [List.find?_cons_of_neg _ (by simpa using hne)]
      exact ih hnd.2 r hr2

theorem find?_dedupByKey_first (key : IpRow → String) :
    ∀ (l : List IpRow) (r : IpRow), r ∈ dedupByKey key l →
      l.find? (fun s => key s = key r) = some r := by
  intro l
  induction l using dedupByKey.induct key with
  | case1 => intro r hr; simp [dedupByKey] at hr
  | case2 x xs ih =>
    intro r hr
    rw [dedupByKey_cons] at hr
    rcases List.mem_cons.1 hr with rfl | hr2
    · exact List.find?_cons_of_pos _ (by simp)
    · have hrf := mem_of_mem_dedupByKey key _ r hr2
      have hkr : key r ≠ key x := by simpa using List.of_mem_filter hrf
      rw [List.find?_cons_of_neg _ (by simp; exact fun h => hkr h.symm)]
      rw [← find?_filter_eq xs (fun s => key s = key r) (fun s => key s ≠ key x)
        (by
          intro s hs
          simp only [decide_eq_true_eq] at hs ⊢
          rw [hs]
          exact hkr)]
      exact ih r hr2

theorem dedupStage_nodup (t : List IpRow) :
    ((dedupStage t).map fun r => r.ip_no).Nodup := by
  by_cases h : (t.map fun r => r.ip_no).Nodup
  · rw [dedupStage, if_pos h]; exact h
  · rw [dedupStage, if_neg h]; exact nodup_map_key_dedupByKey _ t

theorem dedupStage_first (t : List IpRow) :
    ∀ r ∈ dedupStage t, t.find? (fun s => s.ip_no = r.ip_no) = some r := by
  by_cases h : (t.map fun r => r.ip_no).Nodup
  · rw [dedupStage, if_pos h]; exact find?_eq_self_of_nodup t h
  · rw [dedupStage, if_neg h]; exact find?_dedupByKey_first _ t

theorem dedupStage_mem (t : List IpRow) :
    ∀ r ∈ dedupStage t, r ∈ t := by
  by_cases h : (t.map fun r => r.ip_no).Nodup
  · rw [dedupStage, if_pos h]; exact fun r hr => hr
  · rw [dedupStage, if_neg h]; exact mem_of_mem_dedupByKey _ t

theorem map_ip_joinFirst (t : List IpRow) (right : List β) (hit : IpRow → β → Bool)
    (enrich : IpRow → β → IpRow)
    (hp : ∀ r m, (enrich r m).ip_no = r.ip_no) :
    (joinFirst t right hit enrich).map (fun r => r.ip_no) =
      t.map (fun r => r.ip_no) := by
  rw [joinFirst, List.map_map]
  apply List.map_congr_left
  intro r _
  simp only [Function.comp]
  cases h : right.find? (hit r) with
  | none => rfl
  | some m => exact hp r m

theorem map_ip_map (t : List IpRow) (f : IpRow → IpRow)
    (hp : ∀ r, (f r).ip_no = r.ip_no) :
    (t.map f).map (fun r => r.ip_no) = t.map (fun r => r.ip_no) := by
  rw [List.map_map]
  apply List.map_congr_left
  intro r _
  exact hp r

theorem mem_ip_joinExpand (t : List IpRow) (right : List β) (hit : IpRow → β → Bool)
    (enrich : IpRow → β → IpRow)
    (hp : ∀ r m, (enrich r m).ip_no = r.ip_no) :
    ∀ r' ∈ joinExpand t right hit enrich, ∃ r ∈ t, r'.ip_no = r.ip_no := by
  intro r' hr'
  rw [joinExpand] at hr'
  rcases List.mem_flatMap.1 hr' with ⟨r, hr, hmem⟩
  refine ⟨r, hr, ?_⟩
  revert hmem
  cases hfil : right.filter (hit r) with
  | nil =>
    intro hmem
    simp only [List.mem_singleton] at hmem
    rw [hmem]
  | cons m ms =>
    intro hmem
    rcases List.mem_map.1 hmem with ⟨m', _, rfl⟩
    exact hp r m'

theorem map_ip_stageDischarge (adm : List AdmissionRow) (dis : List DischargeRow) :
    (stageDischarge adm dis).map (fun r => r.ip_no) =
      adm.map (fun a => a.ip_no) := by
  rw [stageDischarge, List.map_map]
  apply List.map_congr_left
  intro a _
  simp only [Function.comp]
  cases h : dis.find? (fun d => d.ip_no = a.ip_no) with
  | none => rfl
  | some d => rfl

theorem map_ip_stagePatient (t : List IpRow) (patient : List PatientRow) :
    (stagePatient t patient).map (fun r => r.ip_no) = t.map (fun r => r.ip_no) := by
  rw [stagePatient]
  refine map_ip_joinFirst _ _ _ _ ?_
  intro r m
  rfl

theorem map_ip_stageAgg (t : List IpRow) (agg : List AggRow) :
    (stageAgg t agg).map (fun r => r.ip_no) = t.map (fun r => r.ip_no) := by
  rw [stageAgg]
  refine map_ip_joinFirst _ _ _ _ ?_
  intro r m
  rfl

theorem map_ip_stageCode (t : List IpRow) (code : List CodeRow) :
    (stageCode t code).map (fun r => r.ip_no) = t.map (fun r => r.ip_no) := by
  rw [stageCode]
  refine map_ip_joinFirst _ _ _ _ ?_
  intro r m
  rfl

theorem map_ip_stageConsultant (t : List IpRow) (doc : List DoctorRow) :
    (stageConsultant t doc).map (fun r => r.ip_no) = t.map (fun r => r.ip_no) := by
  rw [stageConsultant]
  refine map_ip_joinFirst _ _ _ _ ?_
  intro r m
  rfl

theorem map_ip_stageReferral (t : List IpRow) (doc : List DoctorRow) :
    (stageReferral t doc).map (fun r => r.ip_no) = t.map (fun r => r.ip_no) := by
  rw [stageReferral]
  refine map_ip_joinFirst _ _ _ _ ?_
  intro r m
  rfl

theorem map_ip_stageTpa (t : List IpRow) (tpa : List TpaDataRow) :
    (stageTpa t tpa).map (fun r => r.ip_no) = t.map (fun r => r.ip_no) := by
  rw [stageTpa]
  refine map_ip_joinFirst _ _ _ _ ?_
  intro r m
  rfl

theorem map_ip_stageCreditFix (t : List IpRow) :
    (stageCreditFix t).map (fun r => r.ip_no) = t.map (fun r => r.ip_no) := by
  rw [stageCreditFix]
  refine map_ip_map _ _ ?_
  intro r
  rfl

theorem map_ip_stageCompanyKey (t : List IpRow) :
    (stageCompanyKey t).map (fun r => r.ip_no) = t.map (fun r => r.ip_no) := by
  rw [stageCompanyKey]
  refine map_ip_map _ _ ?_
  intro r
  rfl

theorem mem_ip_stageTpaMap (t : List IpRow) (tm : List TpaMapRow) :
    ∀ r' ∈ stageTpaMap t tm, ∃ r ∈ t, r'.ip_no = r.ip_no := by
  rw [stageTpaMap]
  refine mem_ip_joinExpand _ _ _ _ ?_
  intro r m
  rfl

/-- Every row of the pre-dedup merged table carries the admission number
of some row of the cleaned admission list. -/
theorem mergeCore_ip_origin (inp : MergeInputs) :
    ∀ r ∈ mergeCore inp, ∃ a ∈ inp.admission, r.ip_no = a.ip_no := by
  intro r hr
  rw [mergeCore] at hr
  rcases List.mem_map.1 hr with ⟨r1, hr1, rfl⟩
  rcases List.mem_map.1 hr1 with ⟨r2, hr2, rfl⟩
  obtain ⟨r3, hr3, hip23⟩ := mem_ip_stageTpaMap _ inp.tpaMapping r2 hr2
  have hkeys :
      (stageCompanyKey (stageCreditFix (stageTpa (stageReferral (stageConsultant
        (stageCode (stageAgg (stagePatient (stageDischarge inp.admission inp.discharge)
          inp.patient) (aggDetail inp.detail)) inp.codeMaster) inp.doctorMaster)
            inp.doctorMaster) inp.tpaData))).map (fun r => r.ip_no) =
      inp.admission.map (fun a => a.ip_no) := by
    rw [map_ip_stageCompanyKey, map_ip_stageCreditFix, map_ip_stageTpa,
      map_ip_stageReferral, map_ip_stageConsultant, map_ip_stageCode,
      map_ip_stageAgg, map_ip_stagePatient, map_ip_stageDischarge]
  have hmem3 : r3.ip_no ∈ inp.admission.map (fun a => a.ip_no) := by
    rw [← hkeys]
    exact List.mem_map.2 ⟨r3, hr3, rfl⟩
  rcases List.mem_map.1 hmem3 with ⟨a, ha, hip⟩
  refine ⟨a, ha, ?_⟩
  show r2.ip_no = a.ip_no
  rw [hip23, hip]

theorem stageExpired_empty (t : List IpRow) (expired : List ExpiredRow)
    (h : expired.isEmpty) :
    stageExpired t expired = t.map fun r => { r with patient_expired := some "no" } := by
  rw [stageExpired, if_pos h]

theorem stageExpired_nonempty (t : List IpRow) (expired : List ExpiredRow)
    (h : ¬ expired.isEmpty) :
    stageExpired t expired = t.map fun r =>
      { r with ip_no := sanitizeIp r.ip_no,
               patient_expired := some
                 (if (dedupByKey id (expired.map fun e => sanitizeIp e.ip_no)).contains
                     (sanitizeIp r.ip_no) then "yes" else "no") } := by
  rw [stageExpired, if_neg h]

/-- C1 (amended).  When `merge_data` completes, the IP fact table holds at
most one row per admission number — provided no two distinct surviving
admission numbers collide under the ASCII sanitization applied before the
expiry join (with an empty expired list nothing is sanitized and the
proviso is vacuous) — and each surviving row is the *first* row of the
pre-dedup merged table bearing its admission number, carrying that row's
revenue and line revenue.  (The unamended claim fails when sanitization
merges two admission numbers: see `merge_duplicate_ip_counterexample`.) -/
theorem merge_data_ip_unique_ip_no (inp : MergeInputs) (out : List IpRow)
    (hok : merge_data_ip inp = .ok out)
    (hinj : ∀ a ∈ inp.admission, ∀ b ∈ inp.admission,
      sanitizeIp a.ip_no = sanitizeIp b.ip_no → a.ip_no = b.ip_no) :
    (out.map fun r => r.ip_no).Nodup ∧
    ∀ r ∈ out, ∃ w, (mergeCore inp).find? (fun s => s.ip_no = w.ip_no) = some w ∧
      r.revenue = w.revenue ∧ r.line_revenue = w.line_revenue ∧
      r.ip_no = (if inp.expired.isEmpty then w.ip_no else sanitizeIp w.ip_no) := by
  rw [merge_data_ip] at hok
  split_ifs at hok <;> try exact Except.noConfusion hok
  have hout := Except.ok.inj hok
  subst hout
  have hTc : ∀ l : List IpRow,
      (stageTpaCorporate l).map (fun r => r.ip_no) = l.map (fun r => r.ip_no) := by
    intro l
    rw [stageTpaCorporate]
    exact map_ip_map l (fun r => { r with tpa_corporate := r.type_of_company })
      (fun r => rfl)
  constructor
  · -- uniqueness of the surviving admission numbers
    rw [hTc]
    by_cases hexp : inp.expired.isEmpty
    · rw [stageExpired_empty _ _ hexp,
        map_ip_map (dedupStage (mergeCore inp))
          (fun r => { r with patient_expired := some "no" }) (fun r => rfl)]
      exact dedupStage_nodup _
    · rw [stageExpired_nonempty _ _ hexp]
      have hcomp : ((dedupStage (mergeCore inp)).map fun r =>
          ({ r with ip_no := sanitizeIp r.ip_no,
                    patient_expired := some
                      (if (dedupByKey id (inp.expired.map fun e => sanitizeIp e.ip_no)).contains
                          (sanitizeIp r.ip_no) then "yes" else "no") } : IpRow)).map
            (fun r => r.ip_no) =
          ((dedupStage (mergeCore inp)).map fun r => r.ip_no).map sanitizeIp := by
        rw [List.map_map, List.map_map]
        apply List.map_congr_left
        intro r _
        rfl
      rw [hcomp]
      refine List.Nodup.map_on ?_ (dedupStage_nodup _)
      intro x hx y hy hxy
      rcases List.mem_map.1 hx with ⟨rx, hrx, rfl⟩
      rcases List.mem_map.1 hy with ⟨ry, hry, rfl⟩
      obtain ⟨a, ha, hax⟩ := mergeCore_ip_origin inp rx (dedupStage_mem _ rx hrx)
      obtain ⟨b, hb, hby⟩ := mergeCore_ip_origin inp ry (dedupStage_mem _ ry hry)
      rw [hax, hby] at hxy ⊢
      exact hinj a ha b hb hxy
  · -- each surviving row is the first pre-dedup row with its key
    intro r hr
    rw [stageTpaCorporate] at hr
    rcases List.mem_map.1 hr with ⟨r1, hr1, rfl⟩
    by_cases hexp : inp.expired.isEmpty
    · rw [stageExpired_empty _ _ hexp] at hr1
      rcases List.mem_map.1 hr1 with ⟨w, hw, rfl⟩
      refine ⟨w, dedupStage_first _ w hw, rfl, rfl, ?_⟩
      rw [if_pos hexp]
    · rw [stageExpired_nonempty _ _ hexp] at hr1
      rcases List.mem_map.1 hr1 with ⟨w, hw, rfl⟩
      refine ⟨w, dedupStage_first _ w hw, rfl, rfl, ?_⟩
      rw [if_neg hexp]

/-- The merge inputs of the C1 counterexample: two distinct admission
numbers `"A1"` and `"A1Ω"` (the second carrying a non-ASCII character, as
`clean_admission_list` only strips whitespace) and a non-empty expired
list, so the expiry join sanitizes both keys to `"A1"` after duplicate
resolution has already run. -/
def dupIpInputs : MergeInputs :=
  { admission := [{ ip_no := "A1" }, { ip_no := "A1Ω" }],
    codeMaster := [{ srv_desc_mapping := "SVC" }],
    expired := [{ ip_no := "ZZ" }] }

/-- C1 counterexample.  `merge_data` completes on `dupIpInputs`, yet its
fact table holds *two* rows with admission number `"A1"`: the non-ASCII
stripping applied to `ip_no` before the expiry join (merge_data.py lines
171-172) runs after the duplicate resolution of lines 153-159 and merges
the two previously distinct admission numbers. -/
theorem merge_duplicate_ip_counterexample :
    ((merge_data_ip dupIpInputs).toOption.getD []).map (fun r => r.ip_no) =
      ["A1", "A1"] ∧
    ¬ (((merge_data_ip dupIpInputs).toOption.getD []).map fun r => r.ip_no).Nodup := by
  have hs1 : sanitizeIp "A1" = "A1" := by decide
  have hs2 : sanitizeIp "A1Ω" = "A1" := by decide
  have hs3 : sanitizeIp "ZZ" = "ZZ" := by decide
  have h1 : ((merge_data_ip dupIpInputs).toOption.getD []).map (fun r => r.ip_no) =
      ["A1", "A1"] := by
    simp [merge_data_ip, mergeCore, stageDischarge, stagePatient, stageAgg, stageCode,
        stageConsultant, stageReferral, stageTpa, stageCreditFix, stageCompanyKey,
        stageTpaMap, stageRevenue, lineRevenueAssign, totalAmt, dedupStage, stageExpired,
        stageTpaCorporate, joinFirst, joinExpand, aggDetail, aggInsert, compute_revenue,
        toNumOr0, gtZero, addN, truncZ, dupIpInputs, dedupByKey, hs1, hs2, hs3,
        List.find?, List.filter, Except.toOption]
  refine ⟨h1, ?_⟩
  rw [h1]
  simp

/-- Witness for C1 (amended): the empty-sources merge (with the mandatory
non-empty charge-code master) completes with an empty, trivially
duplicate-free fact table. -/
theorem merge_data_ip_unique_ip_no_witness :
    ((([] : List IpRow)).map (fun r => r.ip_no)).Nodup ∧
    ∀ r ∈ ([] : List IpRow),
      ∃ w, (mergeCore { codeMaster := [{ srv_desc_mapping := "SVC" }] }).find?
          (fun s => s.ip_no = w.ip_no) = some w ∧
        r.revenue = w.revenue ∧ r.line_revenue = w.line_revenue ∧
        r.ip_no = (if (MergeInputs.expired
            { codeMaster := [{ srv_desc_mapping := "SVC" }] }).isEmpty then w.ip_no
          else sanitizeIp w.ip_no) :=
  merge_data_ip_unique_ip_no { codeMaster := [{ srv_desc_mapping := "SVC" }] } []
    (by rfl)
    (by intro a ha; simp at ha)

end Hospital
